import Mathlib

/-!
# Verification of the Fare_Calculator trip pipeline

Shallow embedding of `src/fare_service.py` (address normalization,
coordinate-literal detection, geocoding fallback, polyline decoding,
routing fallback, haversine same-point check, fare computation) and proofs
settling the frozen claims about it.

Modelling conventions:
* Python strings are `String`/`List Char`; the embedding covers the ASCII
  whitespace / letter repertoire the service operates on (`str.lower`,
  `re` word characters and `\s` are modelled on their ASCII fragments).
* Python floats are modelled as exact rationals (`ℚ`); the transcendental
  haversine computation is modelled over `ℝ`.
* Network provider calls are modelled as environment functions returning
  `Option` (`none` = the call raised an exception / returned no result);
  a raised `ValueError` is modelled as `Except.error`.
* A Python `IndexError` (reading past the end of a string) is modelled as
  an `Option.none` result.
-/

namespace FareService

/-! ## Character classes (ASCII fragments of Python's `str`/`re` semantics) -/

/-- Python whitespace (`str.strip`, regex `\s`), ASCII fragment. -/
def pyIsSpace (c : Char) : Bool :=
  c = ' ' || c = '\t' || c = '\n' || c = '\r' || c = '\x0b' || c = '\x0c'

/-- Line-break characters recognised by `str.splitlines` (ASCII fragment),
after `"\r\n"` has been fused into `'\n'`. -/
def isLineBreak (c : Char) : Bool :=
  c = '\n' || c = '\r' || c = '\x0b' || c = '\x0c'

/-- Python regex word character `\w` (ASCII fragment): letters, digits, `_`. -/
def isWordChar (c : Char) : Bool :=
  c.isAlphanum || c = '_'

/-- ASCII lower-casing, as performed by Python's `str.lower()` and by
`re.IGNORECASE` matching on ASCII input. -/
def lcase (c : Char) : Char :=
  if 65 ≤ c.toNat ∧ c.toNat ≤ 90 then Char.ofNat (c.toNat + 32) else c

theorem toNat_ofNat_valid (n : Nat) (h : n.isValidChar) : (Char.ofNat n).toNat = n := by
  simp [Char.ofNat, h, Char.ofNatAux, Char.toNat, UInt32.toNat, BitVec.toNat_ofNatLt]

theorem lcase_idem (c : Char) : lcase (lcase c) = lcase c := by
  unfold lcase
  by_cases h : 65 ≤ c.toNat ∧ c.toNat ≤ 90
  · have hv : (c.toNat + 32).isValidChar := by
      constructor
      omega
    rw [if_pos h]
    have ht : (Char.ofNat (c.toNat + 32)).toNat = c.toNat + 32 :=
      toNat_ofNat_valid (c.toNat + 32) hv
    rw [if_neg]
    omega
  · rw [if_neg h, if_neg h]

/-! ## String utilities shared by the embedded functions -/

/-- Python `str.strip()`: drop leading and trailing whitespace. -/
def stripChars (l : List Char) : List Char :=
  ((l.dropWhile pyIsSpace).reverse.dropWhile pyIsSpace).reverse

/-- Fuse the two-character line break `"\r\n"` into a single `'\n'`
(so that `str.splitlines` can be modelled one character at a time). -/
def fuseCRLF : List Char → List Char
  | '\r' :: '\n' :: rest => '\n' :: fuseCRLF rest
  | c :: rest => c :: fuseCRLF rest
  | [] => []

/-- Worker for `str.splitlines`: a trailing line break produces no extra
empty line. `acc` holds the current line, reversed. -/
def splitlinesGo : List Char → List Char → List (List Char)
  | [], acc => [acc.reverse]
  | c :: rest, acc =>
    if isLineBreak c then
      acc.reverse :: (if rest.isEmpty then [] else splitlinesGo rest [])
    else splitlinesGo rest (c :: acc)

/-- Python `str.splitlines()` (ASCII line breaks). -/
def pySplitlines (l : List Char) : List (List Char) :=
  if l.isEmpty then [] else splitlinesGo (fuseCRLF l) []

/-- Python `str.split(sep)` for a single-character separator:
`"".split(",") = [""]`, separators produce empty segments. -/
def splitOn (sep : Char) : List Char → List (List Char)
  | [] => [[]]
  | c :: rest =>
    if c = sep then [] :: splitOn sep rest
    else
      match splitOn sep rest with
      | [] => [[c]]
      | h :: t => (c :: h) :: t

/-- Worker for Python's no-argument `str.split()`: maximal runs of
non-whitespace characters; `cur` holds the current word, reversed. -/
def pyWordsGo : List Char → List Char → List (List Char)
  | [], cur => if cur.isEmpty then [] else [cur.reverse]
  | c :: rest, cur =>
    if pyIsSpace c then
      if cur.isEmpty then pyWordsGo rest [] else cur.reverse :: pyWordsGo rest []
    else pyWordsGo rest (c :: cur)

/-- Python `str.split()` with no argument: whitespace-delimited words. -/
def pyWords (l : List Char) : List (List Char) :=
  pyWordsGo l []

/-- The fixpoint of `while ",," in a: a = a.replace(",,", ",")`:
every maximal run of commas collapses to a single comma. -/
def collapseCommas : List Char → List Char
  | [] => []
  | [c] => [c]
  | c1 :: c2 :: rest =>
    if c1 = ',' ∧ c2 = ',' then collapseCommas (c2 :: rest)
    else c1 :: collapseCommas (c2 :: rest)

/-- Sort key used for candidate-line selection:
`lambda x: (x.count(','), len(x))`. -/
def addrKey (l : List Char) : Nat × Nat :=
  (l.count ',', l.length)

/-- Strict `>` on Python tuples of two integers (lexicographic). -/
def keyGT (a b : Nat × Nat) : Prop :=
  b.1 < a.1 ∨ (a.1 = b.1 ∧ b.2 < a.2)

instance (a b : Nat × Nat) : Decidable (keyGT a b) := by
  unfold keyGT
  infer_instance

/-- Python `max(lines, key=...)`: scans left to right, keeping the current
maximum and replacing it only on strictly greater key (first maximum wins). -/
def pyMaxBy (best : List Char) : List (List Char) → List Char
  | [] => best
  | x :: rest => pyMaxBy (if keyGT (addrKey x) (addrKey best) then x else best) rest

/-- Case-sensitive `pat` is a prefix of `l` (false when `l` is shorter). -/
def startsWithCS (pat l : List Char) : Prop :=
  l.take pat.length = pat

instance (pat l : List Char) : Decidable (startsWithCS pat l) := by
  unfold startsWithCS
  infer_instance

/-- Python's substring test `pat in l` (case-sensitive). -/
def containsSub (pat : List Char) : List Char → Bool
  | [] => pat.isEmpty
  | c :: rest => decide (startsWithCS pat (c :: rest)) || containsSub pat rest

/-- Case-insensitive prefix match, as `re.IGNORECASE` does on ASCII. -/
def startsWithCI (pat l : List Char) : Prop :=
  (l.take pat.length).map lcase = pat.map lcase

instance (pat l : List Char) : Decidable (startsWithCI pat l) := by
  unfold startsWithCI
  infer_instance

/-! ## `_strip_whatsapp_metadata` (fare_service.py lines 10-24)

Each of the three `re.sub` patterns is anchored at the start of the string
and is embedded as a direct scanner; on no-match the input is returned
unchanged, as `re.sub` does. -/

/-- `re.sub(r"^\s*\[[^\]]+\]\s*", "", t)`: drop a leading bracketed
timestamp block. -/
def stripTimeBlock (l : List Char) : List Char :=
  match l.dropWhile pyIsSpace with
  | '[' :: rest =>
    let inner := rest.takeWhile (fun c => ¬ c = ']')
    if inner.isEmpty then l
    else
      match rest.dropWhile (fun c => ¬ c = ']') with
      | ']' :: rest2 => rest2.dropWhile pyIsSpace
      | _ => l
  | _ => l

/-- `re.sub(r"^\s*[+\d][\d\s()\-]*:\s*", "", t)`: drop a leading
phone-number/name token ending in a colon. -/
def stripPhoneTag (l : List Char) : List Char :=
  match l.dropWhile pyIsSpace with
  | c :: rest =>
    if c = '+' ∨ c.isDigit then
      match rest.dropWhile (fun ch => ch.isDigit || pyIsSpace ch || ch = '(' || ch = ')' || ch = '-') with
      | ':' :: rest2 => rest2.dropWhile pyIsSpace
      | _ => l
    else l
  | [] => l

/-- `re.sub(r"^(from|to)\s*:?,?\s*", "", t, flags=re.IGNORECASE)`: drop a
leading From/To label with optional colon/comma. -/
def stripLeadingLabel (l : List Char) : List Char :=
  if startsWithCI "from".data l then
    let r1 := (l.drop 4).dropWhile pyIsSpace
    let r2 := match r1 with | ':' :: t => t | _ => r1
    let r3 := match r2 with | ',' :: t => t | _ => r2
    r3.dropWhile pyIsSpace
  else if startsWithCI "to".data l then
    let r1 := (l.drop 2).dropWhile pyIsSpace
    let r2 := match r1 with | ':' :: t => t | _ => r1
    let r3 := match r2 with | ',' :: t => t | _ => r2
    r3.dropWhile pyIsSpace
  else l

/-- `_strip_whatsapp_metadata`: strip, then the three anchored
substitutions in order. -/
def stripChatArtifacts (l : List Char) : List Char :=
  if l.isEmpty then l
  else stripLeadingLabel (stripPhoneTag (stripTimeBlock (stripChars l)))

/-! ## Word-boundary substitution (`re.sub` with `\b...\b` patterns)

The scanners walk the string left to right, carrying the previous original
character (`prev`) so that the `\b` boundary can be decided; after a match
they continue past the matched region, exactly as `re.sub` does. -/

/-- A `\b` boundary holds before a word-character match position. -/
def boundaryL (prev : Option Char) : Prop :=
  match prev with
  | none => True
  | some p => ¬ isWordChar p

instance (prev : Option Char) : Decidable (boundaryL prev) := by
  unfold boundaryL
  cases prev <;> infer_instance

/-- A `\b` boundary holds after a word-character match region. -/
def boundaryR (l : List Char) : Prop :=
  match l with
  | [] => True
  | d :: _ => ¬ isWordChar d

instance (l : List Char) : Decidable (boundaryR l) := by
  unfold boundaryR
  cases l <;> infer_instance

/-- `re.sub(rf"\b{w}\b", rep, l, flags=re.IGNORECASE)` for a fixed word `w`
made of word characters (leftmost, non-overlapping matches). -/
def subWordCI (w rep : List Char) (prev : Option Char) : List Char → List Char
  | [] => []
  | c :: rest =>
    if w ≠ [] ∧ boundaryL prev ∧ startsWithCI w (c :: rest) ∧ boundaryR ((c :: rest).drop w.length) then
      rep ++ subWordCI w rep (some (((c :: rest).take w.length).getLastD c)) ((c :: rest).drop w.length)
    else c :: subWordCI w rep (some c) rest
termination_by l => l.length
decreasing_by
  · simp only [List.length_drop, List.length_cons]
    have hw : 1 ≤ w.length := List.length_pos.mpr (by tauto)
    omega
  · simp

/-- `re.sub(r"\b\d{5}\b", "", p)`: remove standalone 5-digit postal codes. -/
def removePostal (prev : Option Char) : List Char → List Char
  | [] => []
  | c :: rest =>
    if 5 ≤ (c :: rest).length ∧ ((c :: rest).take 5).all Char.isDigit ∧ boundaryL prev ∧ boundaryR ((c :: rest).drop 5) then
      removePostal (some (((c :: rest).take 5).getLastD c)) ((c :: rest).drop 5)
    else c :: removePostal (some c) rest
termination_by l => l.length
decreasing_by
  · simp only [List.length_drop, List.length_cons]
    omega
  · simp

/-- `re.sub(re.escape(pat), rep, l, flags=re.IGNORECASE)` for a plain
(non-word-anchored) pattern: leftmost, non-overlapping, case-insensitive. -/
def replaceAllCI (pat rep : List Char) : List Char → List Char
  | [] => []
  | c :: rest =>
    if pat ≠ [] ∧ startsWithCI pat (c :: rest) then
      rep ++ replaceAllCI pat rep ((c :: rest).drop pat.length)
    else c :: replaceAllCI pat rep rest
termination_by l => l.length
decreasing_by
  · simp only [List.length_drop, List.length_cons]
    have hw : 1 ≤ pat.length := List.length_pos.mpr (by tauto)
    omega
  · simp

/-- Plain case-sensitive replace-all (used by the claim-side reference
definition for the alias step). -/
def plainReplaceAll (pat rep : List Char) : List Char → List Char
  | [] => []
  | c :: rest =>
    if pat ≠ [] ∧ startsWithCS pat (c :: rest) then
      rep ++ plainReplaceAll pat rep ((c :: rest).drop pat.length)
    else c :: plainReplaceAll pat rep rest
termination_by l => l.length
decreasing_by
  · simp only [List.length_drop, List.length_cons]
    have hw : 1 ≤ pat.length := List.length_pos.mpr (by tauto)
    omega
  · simp

/-- Count of `\b w \b` case-insensitive matches (leftmost,
non-overlapping); `re.search` succeeds iff this is nonzero. -/
def countWordCI (w : List Char) (prev : Option Char) : List Char → Nat
  | [] => 0
  | c :: rest =>
    if w ≠ [] ∧ boundaryL prev ∧ startsWithCI w (c :: rest) ∧ boundaryR ((c :: rest).drop w.length) then
      1 + countWordCI w (some (((c :: rest).take w.length).getLastD c)) ((c :: rest).drop w.length)
    else countWordCI w (some c) rest
termination_by l => l.length
decreasing_by
  · simp only [List.length_drop, List.length_cons]
    have hw : 1 ≤ w.length := List.length_pos.mpr (by tauto)
    omega
  · simp

/-- Occurrences of the whole-word, case-insensitive country token
`\b(Malaysia)\b` (fare_service.py line 99). -/
def countryCount (l : List Char) : Nat :=
  countWordCI "Malaysia".data none l

/-! ## `normalize_address` (fare_service.py lines 27-101) -/

/-- The road/place abbreviation table, in source (dict) order. -/
def abbrevTable : List (List Char × List Char) :=
  [("Jln".data, "Jalan".data), ("Jl".data, "Jalan".data), ("Lbh".data, "Lebuh".data),
   ("Lor".data, "Lorong".data), ("Kg".data, "Kampung".data), ("Tmn".data, "Taman".data),
   ("Bt".data, "Batu".data)]

/-- Apply the whole-word, case-insensitive abbreviation substitutions in
table order. -/
def applyAbbrevs (l : List Char) : List Char :=
  abbrevTable.foldl (fun acc p => subWordCI p.1 p.2 none acc) l

/-- The local alias table, in source (dict) order. -/
def aliasTable : List (List Char × List Char) :=
  [("ioi resort".data, "IOI Resort City".data), ("putrajya".data, "Putrajaya".data)]

/-- `expand_abbrev` (fare_service.py lines 62-89): remove postal codes,
expand abbreviations, then — if an alias key occurs in the lower-cased
segment — substitute it inside that lower-cased segment (first matching
alias only, `break`); finally strip. -/
def expand_abbrev (p : List Char) : List Char :=
  let p1 := removePostal none p
  let p2 := applyAbbrevs p1
  let lower := p2.map lcase
  match aliasTable.find? (fun kv => containsSub kv.1 lower) with
  | some kv => stripChars (replaceAllCI kv.1 kv.2 lower)
  | none => stripChars p2

/-- Candidate-line selection (fare_service.py lines 43-49): split into
lines, strip each, drop empties; if any remain, strip chat metadata from
each and take the max by `(comma count, length)`; otherwise use the raw
string. -/
def selectCandidate (l : List Char) : List Char :=
  let lines := ((pySplitlines l).map stripChars).filter (fun x => ¬ x.isEmpty)
  match lines with
  | [] => l
  | _ =>
    match lines.map stripChatArtifacts with
    | [] => l
    | h :: t => pyMaxBy h t

/-- The normalization pipeline up to (but excluding) the country-append
step (fare_service.py lines 43-97). -/
def normalizeBody (l : List Char) : List Char :=
  let candidate := selectCandidate l
  let a1 := candidate.map (fun c => if c = '\n' then ' ' else c)
  let a2 := collapseCommas a1
  let parts := ((splitOn ',' a2).map stripChars).filter (fun x => ¬ x.isEmpty)
  let parts2 := (parts.map expand_abbrev).filter (fun x => ¬ x.isEmpty)
  let a3 := List.intercalate ", ".data parts2
  List.intercalate " ".data (pyWords a3)

/-- `normalize_address` (fare_service.py lines 27-101). The final step
appends `", Malaysia"` when `re.search(r"\b(Malaysia)\b", a, re.IGNORECASE)`
finds no occurrence, i.e. when `countryCount` is zero. -/
def normalize_address (s : String) : String :=
  if s.data.isEmpty then ""
  else
    let b := normalizeBody s.data
    if countryCount b = 0 then ⟨b ++ ", Malaysia".data⟩ else ⟨b⟩

/-- `_simplify_address_for_retry` (fare_service.py lines 104-123). -/
def simplify_address_for_retry (s : String) : Option String :=
  if s.data.isEmpty then none
  else
    let parts := ((splitOn ',' s.data).map stripChars).filter (fun x => ¬ x.isEmpty)
    if parts.length ≤ 1 then none
    else
      let keep := if 3 ≤ parts.length then parts.drop (parts.length - 3)
                  else parts.drop (parts.length - 2)
      let simplified := List.intercalate ", ".data keep
      if ¬ simplified.isEmpty ∧ ¬ simplified = s.data then some ⟨simplified⟩ else none

/-! ## Numeric-token extraction (`re.findall(r"[+-]?(?:\d+(?:\.\d+)?)", s)`,
fare_service.py line 210) and coordinate-literal parsing -/

/-- Value of a digit string (most significant first). -/
def natOfDigits (l : List Char) : Nat :=
  l.foldl (fun a c => 10 * a + (c.toNat - 48)) 0

/-- The rational value `float(token)` of a matched numeric token with
integer part `ip` and fractional part `fp`. -/
def ratOfParts (neg : Bool) (ip fp : List Char) : ℚ :=
  let m : ℚ := (natOfDigits ip : ℚ) + (natOfDigits fp : ℚ) / (10 ^ fp.length : ℚ)
  if neg then -m else m

/-- Head of the list is a digit. -/
def headDigit : List Char → Bool
  | d :: _ => d.isDigit
  | [] => false

/-- Parse the optional `(?:\.\d+)?` fractional part: consumed only when a
dot is immediately followed by a digit. -/
def fracPart (l : List Char) : List Char × List Char :=
  match l with
  | c :: rest =>
    if c = '.' ∧ headDigit rest then (rest.takeWhile Char.isDigit, rest.dropWhile Char.isDigit)
    else ([], c :: rest)
  | [] => ([], [])

theorem length_dropWhile_le (p : Char → Bool) (l : List Char) :
    (l.dropWhile p).length ≤ l.length :=
  (List.dropWhile_sublist p).length_le

theorem fracPart_length (l : List Char) : (fracPart l).2.length ≤ l.length := by
  cases l with
  | nil => simp [fracPart]
  | cons c rest =>
    simp only [fracPart]
    split
    · have := length_dropWhile_le Char.isDigit rest
      simp only [List.length_cons]
      omega
    · simp

/-- All numeric tokens of the string, in order, as exact rationals
(leftmost non-overlapping matches of `[+-]?(?:\d+(?:\.\d+)?)`). -/
def scanNums : List Char → List ℚ
  | [] => []
  | c :: rest =>
    if c.isDigit then
      let ip := (c :: rest).takeWhile Char.isDigit
      let fpr := fracPart ((c :: rest).dropWhile Char.isDigit)
      ratOfParts false ip fpr.1 :: scanNums fpr.2
    else if (c = '+' ∨ c = '-') ∧ headDigit rest then
      let ip := rest.takeWhile Char.isDigit
      let fpr := fracPart (rest.dropWhile Char.isDigit)
      ratOfParts (c = '-') ip fpr.1 :: scanNums fpr.2
    else scanNums rest
termination_by l => l.length
decreasing_by
  · rename_i hc
    have h1 := fracPart_length ((c :: rest).dropWhile Char.isDigit)
    have h2 : ((c :: rest).dropWhile Char.isDigit).length ≤ rest.length := by
      rw [List.dropWhile_cons_of_pos hc]
      exact length_dropWhile_le Char.isDigit rest
    simp only [List.length_cons]
    omega
  · rename_i _hc hsign
    have h1 := fracPart_length (rest.dropWhile Char.isDigit)
    have h2 : (rest.dropWhile Char.isDigit).length < rest.length := by
      cases rest with
      | nil => simp [headDigit] at hsign
      | cons d rest2 =>
        have hd : d.isDigit := by simpa [headDigit] using hsign.2
        rw [List.dropWhile_cons_of_pos hd]
        have := length_dropWhile_le Char.isDigit rest2
        simp only [List.length_cons]
        omega
    simp only [List.length_cons]
    omega
  · simp

/-- The first two numeric tokens of the string, when present. -/
def firstTwoNums (s : String) : Option (ℚ × ℚ) :=
  match scanNums s.data with
  | a :: b :: _ => some (a, b)
  | _ => none

/-- `_try_parse_coords` (fare_service.py lines 206-221): take the first
two numeric tokens; if the first looks like a latitude and the second like
a longitude, return `(lon, lat) = (b, a)`, otherwise return `(a, b)`
unvalidated. -/
def try_parse_coords (s : String) : Option (ℚ × ℚ) :=
  if s.data.isEmpty then none
  else
    match scanNums s.data with
    | a :: b :: _ =>
      if -90 ≤ a ∧ a ≤ 90 ∧ -180 ≤ b ∧ b ≤ 180 then some (b, a) else some (a, b)
    | _ => none

/-! ## `robust_geocode` (fare_service.py lines 197-258)

A coordinate is an exact `(longitude, latitude)` pair of rationals. The
two geocoding providers are modelled as environment functions returning
`none` when the call raises (HTTP error, empty result set, ...); the ORS
provider is additionally guarded by the presence of its API key. -/

/-- An `(longitude, latitude)` pair. -/
abbrev Coord := ℚ × ℚ

/-- The ambient configuration and provider behaviour seen by
`robust_geocode`: `orsKey` is the presence of `OPENROUTESERVICE_API_KEY`,
`ors address` the outcome of `geocode_address` (ORS Pelias), `nominatim
address` the outcome of `geocode_address_nominatim`. -/
structure GeoEnv where
  orsKey : Bool
  ors : String → Option Coord
  nominatim : String → Option Coord

/-- `robust_geocode`: coordinate literal, then ORS (if credentialed), then
Nominatim, then both again on the simplified address; every provider
exception is swallowed; exhaustion raises `ValueError` carrying the
original address (modelled as `Except.error address`). -/
def robust_geocode (env : GeoEnv) (address : String) : Except String Coord :=
  match try_parse_coords address with
  | some c => .ok c
  | none =>
    match (if env.orsKey then env.ors address else none) with
    | some c => .ok c
    | none =>
      match env.nominatim address with
      | some c => .ok c
      | none =>
        match simplify_address_for_retry address with
        | some simplified =>
          match (if env.orsKey then env.ors simplified else none) with
          | some c => .ok c
          | none =>
            match env.nominatim simplified with
            | some c => .ok c
            | none => .error address
        | none => .error address

/-! ## `haversine_meters` (fare_service.py lines 261-276) -/

/-- `math.radians`. -/
noncomputable def radiansOf (x : ℝ) : ℝ := x * Real.pi / 180

/-- Haversine distance in meters between two `(lon, lat)` coordinates. -/
noncomputable def haversine_meters (a b : Coord) : ℝ :=
  let lon1 : ℝ := (a.1 : ℝ)
  let lat1 : ℝ := (a.2 : ℝ)
  let lon2 : ℝ := (b.1 : ℝ)
  let lat2 : ℝ := (b.2 : ℝ)
  let R : ℝ := 6371000
  let phi1 := radiansOf lat1
  let phi2 := radiansOf lat2
  let dphi := radiansOf (lat2 - lat1)
  let dlambda := radiansOf (lon2 - lon1)
  let h := Real.sin (dphi / 2) ^ 2 + Real.cos phi1 * Real.cos phi2 * Real.sin (dlambda / 2) ^ 2
  2 * R * Real.arcsin (Real.sqrt h)

theorem haversine_meters_self (a : Coord) : haversine_meters a a = 0 := by
  unfold haversine_meters radiansOf
  simp

/-! ## `_polyline_decode` (fare_service.py lines 409-441)

The decoder reads 5-bit varint groups. A continuation byte is one with
`ord(c) - 63 ≥ 0x20`; reading past the end of the string raises
`IndexError` in Python, modelled here as `none`. -/

/-- One varint group: accumulate 5-bit chunks until a byte with the
continuation bit clear; `none` when the string ends mid-group
(Python's `IndexError`). -/
def polyVarint : List Char → Nat → Nat → Option (Nat × List Char)
  | [], _, _ => none
  | c :: rest, result, shift =>
    let b : Int := (c.toNat : Int) - 63
    let result' := result ||| ((b.emod 32).toNat <<< shift)
    if b < 32 then some (result', rest) else polyVarint rest result' (shift + 5)

/-- Zig-zag decoding: `~(r >> 1) if r & 1 else (r >> 1)`. -/
def zigzag (r : Nat) : Int :=
  if r % 2 = 1 then -((r >>> 1 : Nat) : Int) - 1 else ((r >>> 1 : Nat) : Int)

theorem polyVarint_rest_length (l : List Char) (r s : Nat) (v : Nat) (rest : List Char)
    (h : polyVarint l r s = some (v, rest)) : rest.length < l.length := by
  induction l generalizing r s with
  | nil => simp [polyVarint] at h
  | cons c t ih =>
    simp only [polyVarint] at h
    split at h
    · cases h
      simp
    · have := ih _ _ h
      simp only [List.length_cons]
      omega

/-- The decoding loop: while characters remain, read a latitude delta and
a longitude delta, update the accumulators, emit `[lng/1e5, lat/1e5]`. -/
def decodePoints (l : List Char) (lat lng : Int) : Option (List (ℚ × ℚ)) :=
  match l with
  | [] => some []
  | c :: rest =>
    match h1 : polyVarint (c :: rest) 0 0 with
    | none => none
    | some (r1, rest1) =>
      match h2 : polyVarint rest1 0 0 with
      | none => none
      | some (r2, rest2) =>
        let lat' := lat + zigzag r1
        let lng' := lng + zigzag r2
        (decodePoints rest2 lat' lng').map
          (fun tl => ((lng' : ℚ) / 100000, (lat' : ℚ) / 100000) :: tl)
termination_by l.length
decreasing_by
  have ha := polyVarint_rest_length _ _ _ _ _ h1
  have hb := polyVarint_rest_length _ _ _ _ _ h2
  simp only [List.length_cons] at *
  omega

/-- `_polyline_decode`: empty input decodes to the empty sequence. -/
def polyline_decode (s : String) : Option (List (ℚ × ℚ)) :=
  if s.data.isEmpty then some [] else decodePoints s.data 0 0

/-- A byte terminating a varint group (`ord(c) - 63 < 0x20`). -/
def isPolyTerm (c : Char) : Bool :=
  (c.toNat : Int) - 63 < 32

/-- Well-formed encodings: the string is empty, or ends on a group
terminator and contains an even number of terminators (so that latitude
and longitude groups pair up exactly). -/
def wellFormedPolyline (s : String) : Bool :=
  match s.data with
  | [] => true
  | c :: rest => ((c :: rest).countP isPolyTerm) % 2 = 0 && isPolyTerm ((c :: rest).getLastD c)

/-! ## Routing fallback chain (fare_service.py lines 543-565) -/

/-- The route-summary dict shared by all backends. -/
structure RouteSummary where
  provider : String
  profile : String
  distance_m : ℚ
  duration_s : ℚ
  geometry : List Coord
  steps : List String
  traffic : Bool
deriving DecidableEq

/-- Routing configuration and provider behaviour: key presence for Google
and ORS, and the outcome of each backend call (`none` = exception). -/
structure RouteEnv where
  gkey : Bool
  google : Coord → Coord → String → Option RouteSummary
  orsKey : Bool
  ors : Coord → Coord → String → Option RouteSummary
  osrm : Coord → Coord → String → Option RouteSummary

/-- The backend-selection logic of `compute_trip` (lines 543-565): Google
(if credentialed, errors swallowed); then, if its key is present, ORS —
whose failure raises `ValueError("Routing failed: ...")` — otherwise
OSRM, whose failure raises likewise. -/
def routeChain (env : RouteEnv) (st en : Coord) (mode : String) : Except String RouteSummary :=
  match (if env.gkey then env.google st en mode else none) with
  | some s => .ok s
  | none =>
    if env.orsKey then
      match env.ors st en mode with
      | some s => .ok s
      | none => .error "Routing failed"
    else
      match env.osrm st en mode with
      | some s => .ok s
      | none => .error "Routing failed"

/-! ## `calculate_fare` (fare_service.py lines 512-517) and
`compute_trip` (lines 520-583) -/

/-- `calculate_fare`: base RM 3 + RM 1 per km + RM 0.5 per minute. -/
def calculate_fare (distance_m duration_s : ℚ) : ℚ :=
  3 + distance_m / 1000 + duration_s / 60 * (1 / 2)

/-- The reference formula stated by the specification:
`fare = base + distance_m/1000 * perKmRate + duration_s/60 * perMinuteRate`
with base = 3, perKmRate = 1, perMinuteRate = 0.5. -/
def fare_formula (distance_m duration_s : ℚ) : ℚ :=
  3 + distance_m / 1000 * 1 + duration_s / 60 * (1 / 2)

/-- The trip-result dict returned by `compute_trip`. -/
structure TripResult where
  distance_km : ℚ
  duration_min : ℚ
  fare_rm : ℚ
  start : Coord
  «end» : Coord
  mode : String
  provider : String
  profile : String
  geometry : List Coord
  steps : List String
  traffic : Bool
deriving DecidableEq

/-- `compute_trip`: normalize both addresses, geocode them, short-circuit
to a zero "direct" summary when the haversine distance is at most 20
meters, otherwise route via the backend chain; then derive km, minutes
and the fare. -/
noncomputable def compute_trip (genv : GeoEnv) (renv : RouteEnv)
    (start_address end_address mode : String) : Except String TripResult :=
  let sN := normalize_address start_address
  let eN := normalize_address end_address
  match robust_geocode genv sN with
  | .error e => .error e
  | .ok st =>
    match robust_geocode genv eN with
    | .error e => .error e
    | .ok en =>
      let summary : Except String RouteSummary :=
        if haversine_meters st en ≤ 20 then
          .ok ⟨"direct", mode, 0, 0, [st, en], [], false⟩
        else routeChain renv st en mode
      match summary with
      | .error e => .error e
      | .ok sum =>
        .ok ⟨sum.distance_m / 1000, sum.duration_s / 60,
             calculate_fare sum.distance_m sum.duration_s,
             st, en, mode, sum.provider, sum.profile, sum.geometry, sum.steps, sum.traffic⟩

/-- Reference formulation of the alias step as the claim words it: when an
alias key occurs (case-insensitively) in the processed segment, the result
is the segment lower-cased with every occurrence of the key replaced by its
canonical form (a plain, case-sensitive substring replacement on the
lower-cased text); otherwise the segment is returned with its casing
untouched. -/
def aliasClaimResult (p : List Char) : List Char :=
  let q := applyAbbrevs (removePostal none p)
  let lower := q.map lcase
  match aliasTable.find? (fun kv => containsSub kv.1 lower) with
  | some kv => stripChars (plainReplaceAll kv.1 kv.2 lower)
  | none => stripChars q

/-! # Claims -/

/-- Claim C6 (confirmed): `calculate_fare` is pure and total and equals the
reference formula `3 + distance_m/1000 * 1 + duration_s/60 * 0.5` with no
rounding; `fare(0,0) = 3`; and the fare is monotonically non-decreasing in
both arguments. -/
theorem calculate_fare_spec (d t d' t' : ℚ) :
    calculate_fare d t = fare_formula d t ∧
    calculate_fare 0 0 = 3 ∧
    (d ≤ d' → t ≤ t' → calculate_fare d t ≤ calculate_fare d' t') := by
  refine ⟨by unfold calculate_fare fare_formula; ring, by norm_num [calculate_fare], ?_⟩
  intro hd ht
  unfold calculate_fare
  gcongr

/-- Witness for C6 at concrete inputs. -/
theorem calculate_fare_spec_witness :
    (0 : ℚ) ≤ 5 ∧ (0 : ℚ) ≤ 7 ∧ calculate_fare 0 0 ≤ calculate_fare 5 7 :=
  ⟨by norm_num, by norm_num, (calculate_fare_spec 0 0 5 7).2.2 (by norm_num) (by norm_num)⟩

/-- Counterexample to claim C1: with no Google key, an ORS key present,
ORS failing and OSRM succeeding, the chain surfaces `RoutingFailed` even
though a further backend (OSRM) is available and would succeed — the ORS
error is not swallowed and OSRM is never selected. -/
theorem routeChain_cx :
    routeChain ⟨false, fun _ _ _ => none, true, fun _ _ _ => none,
        fun _ _ _ => some ⟨"osrm", "driving", 5000, 300, [], [], false⟩⟩
        (101, 3) (102, 4) "car" = .error "Routing failed" ∧
    (RouteEnv.mk false (fun _ _ _ => none) true (fun _ _ _ => none)
        (fun _ _ _ => some ⟨"osrm", "driving", 5000, 300, [], [], false⟩)).osrm
        (101, 3) (102, 4) "car" = some ⟨"osrm", "driving", 5000, 300, [], [], false⟩ := by
  exact ⟨rfl, rfl⟩

/-- Claim C1 as amended: only Google-backend errors are swallowed, driving
selection to the second backend — ORS when its key is configured, else
OSRM; an error in that second backend is not swallowed but surfaces
`RoutingFailed` immediately (OSRM is never attempted after a credentialed
ORS failure). -/
theorem routeChain_fallback (env : RouteEnv) (st en : Coord) (mode : String) :
    (∀ s, env.gkey = true → env.google st en mode = some s →
        routeChain env st en mode = .ok s) ∧
    ((if env.gkey then env.google st en mode else none) = none →
      (env.orsKey = true →
        (∀ s, env.ors st en mode = some s → routeChain env st en mode = .ok s) ∧
        (env.ors st en mode = none →
          routeChain env st en mode = .error "Routing failed")) ∧
      (env.orsKey = false →
        (∀ s, env.osrm st en mode = some s → routeChain env st en mode = .ok s) ∧
        (env.osrm st en mode = none →
          routeChain env st en mode = .error "Routing failed"))) := by
  unfold routeChain
  refine ⟨?_, ?_⟩
  · intro s hg hsome
    rw [hg, if_pos rfl, hsome]
  · intro hnone
    rw [hnone]
    refine ⟨?_, ?_⟩
    · intro hk
      rw [hk, if_pos rfl]
      exact ⟨fun s hs => by rw [hs], fun hn => by rw [hn]⟩
    · intro hk
      rw [hk]
      simp only [Bool.false_eq_true, if_false]
      exact ⟨fun s hs => by rw [hs], fun hn => by rw [hn]⟩

/-- Witness for C1's amended theorem: Google credentialed but failing, ORS
credentialed and succeeding — the ORS result is returned. -/
theorem routeChain_fallback_witness :
    routeChain ⟨true, fun _ _ _ => none, true,
        fun _ _ _ => some ⟨"ors", "driving-car", 1000, 60, [], [], false⟩,
        fun _ _ _ => none⟩ (101, 3) (102, 4) "car" =
      .ok ⟨"ors", "driving-car", 1000, 60, [], [], false⟩ := by
  have h := routeChain_fallback ⟨true, fun _ _ _ => none, true,
      fun _ _ _ => some ⟨"ors", "driving-car", 1000, 60, [], [], false⟩,
      fun _ _ _ => none⟩ (101, 3) (102, 4) "car"
  exact ((h.2 rfl).1 rfl).1 _ rfl

/-- Claim C5 (confirmed): when the input is not a coordinate literal,
`robust_geocode` tries ORS (when credentialed) first, then Nominatim, then
both again on the simplified address, swallowing every provider failure;
in particular a failing credentialed ORS with a succeeding Nominatim
returns the Nominatim result; only exhaustion of all strategies yields the
failure, which carries the original (non-simplified) address. -/
theorem robust_geocode_chain (env : GeoEnv) (a : String)
    (hp : try_parse_coords a = none) :
    (∀ c, env.orsKey = true → env.ors a = some c → robust_geocode env a = .ok c) ∧
    ((if env.orsKey then env.ors a else none) = none →
      (∀ c, env.nominatim a = some c → robust_geocode env a = .ok c) ∧
      (env.nominatim a = none →
        (∀ simplified c, simplify_address_for_retry a = some simplified →
            env.orsKey = true → env.ors simplified = some c →
            robust_geocode env a = .ok c) ∧
        (∀ simplified c, simplify_address_for_retry a = some simplified →
            (if env.orsKey then env.ors simplified else none) = none →
            env.nominatim simplified = some c → robust_geocode env a = .ok c) ∧
        ((∀ simplified, simplify_address_for_retry a = some simplified →
            (if env.orsKey then env.ors simplified else none) = none ∧
            env.nominatim simplified = none) →
          robust_geocode env a = .error a))) := by
  unfold robust_geocode
  rw [hp]
  refine ⟨?_, ?_⟩
  · intro c hk hc
    rw [hk, if_pos rfl, hc]
  · intro h1
    rw [h1]
    refine ⟨fun c hc => by rw [hc], ?_⟩
    intro h2
    rw [h2]
    refine ⟨?_, ?_, ?_⟩
    · intro simplified c hs hk hc
      simp [hs, hk, hc]
    · intro simplified c hs hsk hc
      simp [hs, hsk, hc]
    · intro hall
      cases hsimp : simplify_address_for_retry a with
      | none => rfl
      | some simplified =>
        have := hall simplified hsimp
        simp [hsimp, this.1, this.2]

/-- Witness for C5: credentialed ORS failing, Nominatim succeeding on the
same text — the Nominatim result is returned without an error. -/
theorem robust_geocode_chain_witness :
    try_parse_coords "x" = none ∧
    robust_geocode ⟨true, fun _ => none, fun _ => some (10, 2)⟩ "x" = .ok (10, 2) := by
  have hp : try_parse_coords "x" = none := by
    simp [try_parse_coords, scanNums, headDigit]
  refine ⟨hp, ?_⟩
  have h := robust_geocode_chain ⟨true, fun _ => none, fun _ => some (10, 2)⟩ "x" hp
  exact (h.2 rfl).1 _ rfl

/-- Counterexample to claim C4: the pipeline applies `normalize_address`
before the literal check. On the raw address `"50000, 3"` the literal
check succeeds (yielding the unvalidated pair `(50000, 3)`), but the
pipeline's geocoding step sees the normalized string `"3, Malaysia"`
(postal-code removal deleted the first number), the literal check fails
there, and a geocoding provider is consulted instead. -/
theorem literal_bypass_cx :
    try_parse_coords "50000, 3" = some (50000, 3) ∧
    normalize_address "50000, 3" = "3, Malaysia" ∧
    robust_geocode ⟨false, fun _ => none, fun _ => some (101, 3)⟩
        (normalize_address "50000, 3") = .ok (101, 3) := by
  have hn : normalize_address "50000, 3" = "3, Malaysia" := by
    simp +decide [normalize_address, normalizeBody, selectCandidate, pySplitlines, fuseCRLF,
      splitlinesGo, stripChars, pyIsSpace, isLineBreak, stripChatArtifacts, stripTimeBlock,
      stripPhoneTag, stripLeadingLabel, startsWithCI, lcase, pyMaxBy, addrKey, keyGT,
      collapseCommas, splitOn, expand_abbrev, removePostal, applyAbbrevs, abbrevTable,
      subWordCI, boundaryL, boundaryR, isWordChar, aliasTable, containsSub, startsWithCS,
      replaceAllCI, pyWords, pyWordsGo, countryCount, countWordCI, List.intercalate]
  have hp2 : try_parse_coords "3, Malaysia" = none := by
    simp +decide [try_parse_coords, scanNums, headDigit, fracPart, ratOfParts, natOfDigits]
  refine ⟨?_, hn, ?_⟩
  · simp +decide [try_parse_coords, scanNums, headDigit, fracPart, ratOfParts, natOfDigits]
  · rw [hn]
    unfold robust_geocode
    rw [hp2]
    rfl

/-- Claim C4 as amended: the literal check is applied by the geocoding
resolver to the address it receives (in the pipeline, the normalized
address); whenever the parse succeeds on that input, the coordinate is
returned immediately and no provider is consulted (the result does not
depend on the provider environment). -/
theorem literal_short_circuit (env : GeoEnv) (a : String) (c : Coord)
    (h : try_parse_coords a = some c) : robust_geocode env a = .ok c := by
  unfold robust_geocode
  rw [h]

/-- Witness for C4's amended theorem. -/
theorem literal_short_circuit_witness :
    try_parse_coords "3, 101" = some (101, 3) ∧
    robust_geocode ⟨false, fun _ => none, fun _ => none⟩ "3, 101" = .ok (101, 3) := by
  have hp : try_parse_coords "3, 101" = some (101, 3) := by
    simp +decide [try_parse_coords, scanNums, headDigit, fracPart, ratOfParts, natOfDigits]
  exact ⟨hp, literal_short_circuit _ _ _ hp⟩

/-- Counterexample to claim C9: the parser's fallback branch performs no
range validation. On `"1000, 2000"` it returns `(lon, lat) = (1000, 2000)`
with a longitude far outside `[-180, 180]` (and a latitude outside
`[-90, 90]`), and `robust_geocode` returns this coordinate unchanged. -/
theorem coord_ranges_cx :
    try_parse_coords "1000, 2000" = some (1000, 2000) ∧
    ¬ ((1000 : ℚ) ≤ 180) ∧ ¬ ((2000 : ℚ) ≤ 90) := by
  refine ⟨?_, by norm_num, by norm_num⟩
  simp +decide [try_parse_coords, scanNums, headDigit, fracPart, ratOfParts, natOfDigits]

/-- Claim C9 as amended: only the lat-first branch of the coordinate
literal parser guarantees the documented ranges: when the first two
numeric tokens `a, b` satisfy `a ∈ [-90, 90]` and `b ∈ [-180, 180]`, the
parser returns `(lon, lat) = (b, a)` with longitude in `[-180, 180]` and
latitude in `[-90, 90]`; the swapped fallback branch returns the tokens
unvalidated. -/
theorem coord_ranges_latlon (s : String) (a b : ℚ)
    (h : firstTwoNums s = some (a, b))
    (h1 : -90 ≤ a) (h2 : a ≤ 90) (h3 : -180 ≤ b) (h4 : b ≤ 180) :
    try_parse_coords s = some (b, a) ∧
    -180 ≤ (b, a).1 ∧ (b, a).1 ≤ 180 ∧ -90 ≤ (b, a).2 ∧ (b, a).2 ≤ 90 := by
  refine ⟨?_, h3, h4, h1, h2⟩
  unfold firstTwoNums at h
  unfold try_parse_coords
  by_cases he : s.data.isEmpty
  · rw [List.isEmpty_iff] at he
    rw [he] at h
    simp [scanNums] at h
  · rw [if_neg (by simpa using he)]
    cases hs : scanNums s.data with
    | nil => rw [hs] at h; simp at h
    | cons a' tl =>
      cases tl with
      | nil => rw [hs] at h; simp at h
      | cons b' tl2 =>
        rw [hs] at h
        simp only [Option.some.injEq, Prod.mk.injEq] at h
        obtain ⟨ha, hb⟩ := h
        show (if -90 ≤ a' ∧ a' ≤ 90 ∧ -180 ≤ b' ∧ b' ≤ 180 then some (b', a')
              else some (a', b')) = some (b, a)
        rw [ha, hb, if_pos ⟨h1, h2, h3, h4⟩]

/-- Witness for C9's amended theorem. -/
theorem coord_ranges_latlon_witness :
    firstTwoNums "3, 101" = some (3, 101) ∧
    try_parse_coords "3, 101" = some (101, 3) ∧ -180 ≤ (101 : ℚ) ∧ (101 : ℚ) ≤ 180 ∧
      -90 ≤ (3 : ℚ) ∧ (3 : ℚ) ≤ 90 := by
  have hf : firstTwoNums "3, 101" = some (3, 101) := by
    simp +decide [firstTwoNums, scanNums, headDigit, fracPart, ratOfParts, natOfDigits]
  have h := coord_ranges_latlon "3, 101" 3 101 hf (by norm_num) (by norm_num)
    (by norm_num) (by norm_num)
  exact ⟨hf, h.1, h.2.1, h.2.2.1, h.2.2.2.1, h.2.2.2.2⟩

/-- Claim C2 (confirmed): whenever the two geocoded endpoints are within
the fixed 20-meter haversine threshold, `compute_trip` skips network
routing entirely (the result does not depend on the routing environment)
and returns distance_km = 0, duration_min = 0, fare = 3, provider
`"direct"` and geometry exactly `[start, end]`. -/
theorem same_point_short_circuit (genv : GeoEnv) (renv : RouteEnv)
    (sA eA mode : String) (st en : Coord)
    (h1 : robust_geocode genv (normalize_address sA) = .ok st)
    (h2 : robust_geocode genv (normalize_address eA) = .ok en)
    (h3 : haversine_meters st en ≤ 20) :
    compute_trip genv renv sA eA mode =
      .ok ⟨0, 0, 3, st, en, mode, "direct", mode, [st, en], [], false⟩ := by
  simp only [compute_trip, h1, h2]
  rw [if_pos h3]
  norm_num [calculate_fare]

/-- Witness for C2: both addresses geocode (via the literal parser on the
normalized text) to the same point, whose self-distance is 0 ≤ 20. -/
theorem same_point_short_circuit_witness :
    robust_geocode ⟨false, fun _ => none, fun _ => none⟩
        (normalize_address "3, 101") = .ok (101, 3) ∧
    haversine_meters (101, 3) (101, 3) ≤ 20 ∧
    compute_trip ⟨false, fun _ => none, fun _ => none⟩
        ⟨false, fun _ _ _ => none, false, fun _ _ _ => none, fun _ _ _ => none⟩
        "3, 101" "3, 101" "car" =
      .ok ⟨0, 0, 3, (101, 3), (101, 3), "car", "direct", "car",
           [(101, 3), (101, 3)], [], false⟩ := by
  have hn : normalize_address "3, 101" = "3, 101, Malaysia" := by
    simp +decide [normalize_address, normalizeBody, selectCandidate, pySplitlines, fuseCRLF,
      splitlinesGo, stripChars, pyIsSpace, isLineBreak, stripChatArtifacts, stripTimeBlock,
      stripPhoneTag, stripLeadingLabel, startsWithCI, lcase, pyMaxBy, addrKey, keyGT,
      collapseCommas, splitOn, expand_abbrev, removePostal, applyAbbrevs, abbrevTable,
      subWordCI, boundaryL, boundaryR, isWordChar, aliasTable, containsSub, startsWithCS,
      replaceAllCI, pyWords, pyWordsGo, countryCount, countWordCI, List.intercalate]
  have hp : try_parse_coords "3, 101, Malaysia" = some (101, 3) := by
    simp +decide [try_parse_coords, scanNums, headDigit, fracPart, ratOfParts, natOfDigits]
  have hg : robust_geocode ⟨false, fun _ => none, fun _ => none⟩
      (normalize_address "3, 101") = .ok (101, 3) := by
    rw [hn]
    unfold robust_geocode
    rw [hp]
  have hh : haversine_meters (101, 3) (101, 3) ≤ 20 := by
    rw [haversine_meters_self]
    norm_num
  exact ⟨hg, hh, same_point_short_circuit _ _ _ _ _ _ _ hg hg hh⟩

/-! ### Polyline decoder claims -/

/-- A successful varint read consumes a (possibly empty) run of
continuation bytes followed by exactly one terminator. -/
theorem polyVarint_split (l : List Char) (r s v : Nat) (rest : List Char)
    (h : polyVarint l r s = some (v, rest)) :
    ∃ pre t, l = pre ++ t :: rest ∧ (∀ c ∈ pre, isPolyTerm c = false) ∧ isPolyTerm t = true := by
  induction l generalizing r s with
  | nil => simp [polyVarint] at h
  | cons c tl ih =>
    simp only [polyVarint] at h
    split at h
    · rename_i hb
      simp only [Option.some.injEq, Prod.mk.injEq] at h
      obtain ⟨hv, hrest⟩ := h
      subst hrest
      refine ⟨[], c, by simp, by simp, ?_⟩
      simp only [isPolyTerm, decide_eq_true_eq]
      exact hb
    · rename_i hb
      obtain ⟨pre, t, heq, hpre, ht⟩ := ih _ _ h
      refine ⟨c :: pre, t, by rw [List.cons_append, heq], ?_, ht⟩
      intro a ha
      rcases List.mem_cons.mp ha with rfl | ha2
      · simp only [isPolyTerm, decide_eq_false_iff_not]
        exact hb
      · exact hpre a ha2

/-- A varint read succeeds whenever a terminator byte occurs in the
remaining input. -/
theorem polyVarint_isSome (l : List Char) (r s : Nat)
    (h : ∃ c ∈ l, isPolyTerm c = true) : (polyVarint l r s).isSome = true := by
  induction l generalizing r s with
  | nil => simp at h
  | cons c tl ih =>
    simp only [polyVarint]
    split
    · simp
    · rename_i hb
      apply ih
      obtain ⟨d, hd, hterm⟩ := h
      rcases List.mem_cons.mp hd with rfl | hd2
      · exact absurd (by simpa [isPolyTerm] using hterm) hb
      · exact ⟨d, hd2, hterm⟩

/-- Well-formedness of the remaining input as a proposition: empty, or an
even number of terminators with the final byte a terminator. -/
def PolyWF (l : List Char) : Prop :=
  l = [] ∨ (l.countP isPolyTerm % 2 = 0 ∧ ∃ t, l.getLast? = some t ∧ isPolyTerm t = true)

theorem decodePoints_isSome (l : List Char) (lat lng : Int) (h : PolyWF l) :
    (decodePoints l lat lng).isSome = true := by
  induction l, lat, lng using decodePoints.induct with
  | case1 lat lng => simp [decodePoints]
  | case2 lat lng c rest h1 =>
    exfalso
    rcases h with h | ⟨heven, t, hlast, hterm⟩
    · exact List.cons_ne_nil c rest h
    · have h1s := polyVarint_isSome (c :: rest) 0 0
        ⟨t, List.mem_of_getLast?_eq_some hlast, hterm⟩
      rw [h1] at h1s
      simp at h1s
  | case3 lat lng c rest r1 rest1 h1 h2 =>
    exfalso
    rcases h with h | ⟨heven, t, hlast, hterm⟩
    · exact List.cons_ne_nil c rest h
    · obtain ⟨pre1, t1, heq1, hpre1, ht1⟩ := polyVarint_split _ _ _ _ _ h1
      have hc0 : pre1.countP isPolyTerm = 0 :=
        List.countP_eq_zero.mpr (fun a ha => by simp [hpre1 a ha])
      have hc1 : (c :: rest).countP isPolyTerm = rest1.countP isPolyTerm + 1 := by
        rw [heq1, List.countP_append, List.countP_cons, hc0]
        simp [ht1]
      have hpos : 0 < rest1.countP isPolyTerm := by
        rw [hc1] at heven
        omega
      obtain ⟨d, hd, hdt⟩ := List.countP_pos_iff.mp hpos
      have h2s := polyVarint_isSome rest1 0 0 ⟨d, hd, hdt⟩
      rw [h2] at h2s
      simp at h2s
  | case4 lat lng c rest r1 rest1 h1 r2 rest2 h2 lat' lng' ih =>
    rcases h with h | ⟨heven, t, hlast, hterm⟩
    · exact absurd h (List.cons_ne_nil c rest)
    · obtain ⟨pre1, t1, heq1, hpre1, ht1⟩ := polyVarint_split _ _ _ _ _ h1
      obtain ⟨pre2, t2, heq2, hpre2, ht2⟩ := polyVarint_split _ _ _ _ _ h2
      have hc0 : pre1.countP isPolyTerm = 0 :=
        List.countP_eq_zero.mpr (fun a ha => by simp [hpre1 a ha])
      have hc0' : pre2.countP isPolyTerm = 0 :=
        List.countP_eq_zero.mpr (fun a ha => by simp [hpre2 a ha])
      have hc2 : (c :: rest).countP isPolyTerm = rest2.countP isPolyTerm + 2 := by
        rw [heq1, heq2, List.countP_append, List.countP_cons, List.countP_append,
          List.countP_cons, hc0, hc0']
        simp [ht1, ht2]
      have heven2 : rest2.countP isPolyTerm % 2 = 0 := by
        rw [hc2] at heven
        omega
      have hwf2 : PolyWF rest2 := by
        cases hrest2 : rest2 with
        | nil => exact Or.inl rfl
        | cons x xs =>
          right
          refine ⟨by rw [← hrest2]; exact heven2, t, ?_, hterm⟩
          have hl2 : (c :: rest) = (pre1 ++ t1 :: pre2 ++ [t2]) ++ rest2 := by
            rw [heq1, heq2]
            simp
          rw [hl2, List.getLast?_append, hrest2] at hlast
          obtain ⟨y, hy⟩ := Option.isSome_iff_exists.mp
            (List.getLast?_isSome.mpr (List.cons_ne_nil x xs))
          rw [hy] at hlast
          simp only [Option.or_some] at hlast
          rw [hy]
          exact hlast
      have hrec := ih hwf2
      simp only [decodePoints]
      split
      · rename_i heq
        rw [heq] at h1
        cases h1
      · rename_i r1' rest1' heq
        rw [h1] at heq
        simp only [Option.some.injEq, Prod.mk.injEq] at heq
        obtain ⟨hq1, hq2⟩ := heq
        subst hq1
        subst hq2
        split
        · rename_i heq2'
          rw [heq2'] at h2
          cases h2
        · rename_i r2' rest2' heq2'
          rw [h2] at heq2'
          simp only [Option.some.injEq, Prod.mk.injEq] at heq2'
          obtain ⟨hq3, hq4⟩ := heq2'
          subst hq3
          subst hq4
          simpa using hrec

/-- Counterexample to claim C3: the decoder is not total on arbitrary
strings — on the one-character input `"?"` (a complete latitude group but
no longitude group) it reads past the end of the string (Python raises
`IndexError`; modelled as `none`). -/
theorem polyline_decode_cx : polyline_decode "?" = none := by
  have h : polyline_decode "?" = decodePoints ['?'] 0 0 := rfl
  rw [h]
  simp [decodePoints, polyVarint]

/-- Claim C3 as amended: the decoder is deterministic and pure, decodes
the empty string to the empty sequence, and terminates on every input; it
returns a sequence of (lon, lat) pairs on every well-formed encoding (even
number of 5-bit groups, final byte a terminator), but on strings ending
mid-coordinate it raises `IndexError` (modelled as `none`). -/
theorem polyline_decode_wf :
    polyline_decode "" = some [] ∧
    ∀ s : String, wellFormedPolyline s = true → (polyline_decode s).isSome = true := by
  refine ⟨rfl, ?_⟩
  intro s hwf
  unfold polyline_decode
  by_cases he : s.data.isEmpty
  · rw [if_pos he]
    rfl
  · rw [if_neg he]
    apply decodePoints_isSome
    unfold wellFormedPolyline at hwf
    cases hd : s.data with
    | nil => simp [hd] at he
    | cons c rest =>
      rw [hd] at hwf
      right
      simp only [Bool.and_eq_true, decide_eq_true_eq] at hwf
      obtain ⟨y, hy⟩ := Option.isSome_iff_exists.mp
        (List.getLast?_isSome.mpr (List.cons_ne_nil c rest))
      refine ⟨hwf.1, y, hy, ?_⟩
      have := hwf.2
      rw [List.getLastD_eq_getLast?, hy] at this
      exact this

/-- Witness for C3's amended theorem on a concrete well-formed encoding. -/
theorem polyline_decode_wf_witness :
    wellFormedPolyline "??" = true ∧ (polyline_decode "??").isSome = true :=
  ⟨by decide, polyline_decode_wf.2 "??" (by decide)⟩

/-! ### `normalize_address` claims -/

theorem fuseCRLF_all_space :
    ∀ l, (∀ c ∈ l, pyIsSpace c = true) → ∀ c ∈ fuseCRLF l, pyIsSpace c = true := by
  intro l
  induction l using fuseCRLF.induct with
  | case1 rest ih =>
    intro h c hc
    rw [fuseCRLF.eq_1] at hc
    rcases List.mem_cons.mp hc with rfl | hc2
    · decide
    · exact ih (fun x hx => h x (by simp [hx])) c hc2
  | case2 c rest hne ih =>
    intro h d hd
    rw [fuseCRLF.eq_2 c rest hne] at hd
    rcases List.mem_cons.mp hd with rfl | hd2
    · exact h _ (by simp)
    · exact ih (fun x hx => h x (by simp [hx])) d hd2
  | case3 =>
    intro h c hc
    simp [fuseCRLF] at hc

theorem splitlinesGo_all_space :
    ∀ l acc, (∀ c ∈ l, pyIsSpace c = true) → (∀ c ∈ acc, pyIsSpace c = true) →
      ∀ ln ∈ splitlinesGo l acc, ∀ c ∈ ln, pyIsSpace c = true := by
  intro l
  induction l with
  | nil =>
    intro acc hl hacc ln hln c hc
    simp only [splitlinesGo, List.mem_singleton] at hln
    subst hln
    exact hacc c (by simpa using hc)
  | cons d rest ih =>
    intro acc hl hacc ln hln c hc
    simp only [splitlinesGo] at hln
    split at hln
    · rcases List.mem_cons.mp hln with rfl | hln2
      · exact hacc c (by simpa using hc)
      · split at hln2
        · simp at hln2
        · exact ih [] (fun x hx => hl x (by simp [hx])) (by simp) ln hln2 c hc
    · refine ih (d :: acc) (fun x hx => hl x (by simp [hx])) ?_ ln hln c hc
      intro x hx
      rcases List.mem_cons.mp hx with rfl | hx2
      · exact hl _ (by simp)
      · exact hacc x hx2

theorem stripChars_eq_nil (l : List Char) (h : ∀ c ∈ l, pyIsSpace c = true) :
    stripChars l = [] := by
  unfold stripChars
  rw [List.dropWhile_eq_nil_iff.mpr h]
  simp

theorem splitOn_no_sep (sep : Char) :
    ∀ l : List Char, (∀ c ∈ l, ¬ c = sep) → splitOn sep l = [l] := by
  intro l
  induction l with
  | nil => intro _; rfl
  | cons c rest ih =>
    intro h
    simp only [splitOn]
    rw [if_neg (h c (by simp)), ih (fun x hx => h x (by simp [hx]))]

theorem collapseCommas_no_comma :
    ∀ l : List Char, (∀ c ∈ l, ¬ c = ',') → collapseCommas l = l := by
  intro l
  induction l using collapseCommas.induct with
  | case1 => intro _; rfl
  | case2 c => intro _; rfl
  | case3 c1 c2 rest hcc ih =>
    intro h
    exact absurd hcc.1 (h c1 (by simp))
  | case4 c1 c2 rest hcc ih =>
    intro h
    simp only [collapseCommas]
    rw [if_neg hcc, ih (fun x hx => h x (by simp [hx]))]

theorem normalizeBody_all_space (l : List Char) (h : ∀ c ∈ l, pyIsSpace c = true) :
    normalizeBody l = [] := by
  have hlines : ((pySplitlines l).map stripChars).filter (fun x => ¬ x.isEmpty) = [] := by
    rw [List.filter_eq_nil_iff]
    intro a ha
    simp only [List.mem_map] at ha
    obtain ⟨ln, hln, rfl⟩ := ha
    have hlnsp : ∀ c ∈ ln, pyIsSpace c = true := by
      unfold pySplitlines at hln
      split at hln
      · simp at hln
      · exact splitlinesGo_all_space (fuseCRLF l) [] (fuseCRLF_all_space l h)
          (by simp) ln hln
    simp [stripChars_eq_nil ln hlnsp]
  have hsel : selectCandidate l = l := by
    simp only [selectCandidate, hlines]
  have ha1 : ∀ c ∈ l.map (fun c => if c = '\n' then ' ' else c), pyIsSpace c = true := by
    intro c hc
    simp only [List.mem_map] at hc
    obtain ⟨x, hx, rfl⟩ := hc
    by_cases hxn : x = '\n'
    · rw [if_pos hxn]
      decide
    · rw [if_neg hxn]
      exact h x hx
  have hnc : ∀ c ∈ l.map (fun c => if c = '\n' then ' ' else c), ¬ c = ',' := by
    intro c hc hceq
    subst hceq
    exact absurd (ha1 _ hc) (by decide)
  simp only [normalizeBody, hsel]
  rw [collapseCommas_no_comma _ hnc, splitOn_no_sep ',' _ hnc]
  simp [stripChars_eq_nil _ ha1, pyWords, pyWordsGo, List.intercalate]

/-- Counterexample to claim C7: on the whitespace-only (but non-empty)
input `" "` the `if not address` guard does not fire, normalization
produces an empty body, the country regex finds no match, and the result
is `", Malaysia"` — not the empty string, and the append step is not
skipped. -/
theorem normalize_whitespace_cx :
    normalize_address " " = ", Malaysia" ∧ (", Malaysia" : String) ≠ "" := by
  constructor
  · simp +decide [normalize_address, normalizeBody, selectCandidate, pySplitlines, fuseCRLF,
      splitlinesGo, stripChars, pyIsSpace, isLineBreak, stripChatArtifacts, stripTimeBlock,
      stripPhoneTag, stripLeadingLabel, startsWithCI, lcase, pyMaxBy, addrKey, keyGT,
      collapseCommas, splitOn, expand_abbrev, removePostal, applyAbbrevs, abbrevTable,
      subWordCI, boundaryL, boundaryR, isWordChar, aliasTable, containsSub, startsWithCS,
      replaceAllCI, pyWords, pyWordsGo, countryCount, countWordCI, List.intercalate]
  · decide

/-- Claim C7 as amended: only the genuinely empty string maps to the empty
string with the country-append step skipped; every non-empty whitespace-only
input instead normalizes to `", Malaysia"` (empty body, country appended). -/
theorem normalize_address_whitespace :
    normalize_address "" = "" ∧
    ∀ s : String, ¬ s.data.isEmpty → (∀ c ∈ s.data, pyIsSpace c = true) →
      normalize_address s = ", Malaysia" := by
  refine ⟨rfl, ?_⟩
  intro s hne h
  unfold normalize_address
  rw [if_neg (by simpa using hne)]
  simp only [normalizeBody_all_space s.data h]
  simp [countryCount, countWordCI]

/-- Witness for C7's amended theorem at the concrete input `" "`. -/
theorem normalize_address_whitespace_witness :
    ¬ (" " : String).data.isEmpty ∧ normalize_address " " = ", Malaysia" :=
  ⟨by decide, normalize_address_whitespace.2 " " (by decide) (by decide)⟩

/-- Counterexample to claim C8: the input `"Malaysia Malaysia"` already
contains the country token twice; normalization changes nothing (the token
is present, so nothing is appended) and the output contains the token
twice, not exactly once. -/
theorem normalize_country_cx :
    countryCount ("Malaysia Malaysia" : String).data ≠ 0 ∧
    countryCount (normalize_address "Malaysia Malaysia").data = 2 := by
  constructor
  · simp +decide [countryCount, countWordCI, startsWithCI, lcase, boundaryL, boundaryR,
      isWordChar]
  · simp +decide [normalize_address, normalizeBody, selectCandidate, pySplitlines, fuseCRLF,
      splitlinesGo, stripChars, pyIsSpace, isLineBreak, stripChatArtifacts, stripTimeBlock,
      stripPhoneTag, stripLeadingLabel, startsWithCI, lcase, pyMaxBy, addrKey, keyGT,
      collapseCommas, splitOn, expand_abbrev, removePostal, applyAbbrevs, abbrevTable,
      subWordCI, boundaryL, boundaryR, isWordChar, aliasTable, containsSub, startsWithCS,
      replaceAllCI, pyWords, pyWordsGo, countryCount, countWordCI, List.intercalate]

/-- Claim C8 as amended: the country-append step fires only when the
token is absent from the normalized body, so whenever the body contains
the token exactly once (any case), the output contains it exactly once;
an input whose selected line already carries the token twice keeps both
occurrences. -/
theorem normalize_country_append (s : String)
    (h : countryCount (normalizeBody s.data) = 1) :
    countryCount (normalize_address s).data = 1 := by
  unfold normalize_address
  by_cases he : s.data.isEmpty
  · exfalso
    rw [List.isEmpty_iff] at he
    rw [he] at h
    have hb : normalizeBody ([] : List Char) = [] := by
      simp [normalizeBody, selectCandidate, pySplitlines, splitOn, stripChars,
        collapseCommas, pyWords, pyWordsGo, List.intercalate]
    rw [hb] at h
    simp [countryCount, countWordCI] at h
  · have hnz : ¬ countryCount (normalizeBody s.data) = 0 := by omega
    rw [if_neg (by simpa using he), if_neg hnz]
    exact h

/-- Witness for C8's amended theorem at a concrete input whose normalized
body contains the country token exactly once. -/
theorem normalize_country_append_witness :
    countryCount (normalizeBody ("x, Malaysia" : String).data) = 1 ∧
    countryCount (normalize_address "x, Malaysia").data = 1 := by
  have h : countryCount (normalizeBody ("x, Malaysia" : String).data) = 1 := by
    simp +decide [normalizeBody, selectCandidate, pySplitlines, fuseCRLF,
      splitlinesGo, stripChars, pyIsSpace, isLineBreak, stripChatArtifacts, stripTimeBlock,
      stripPhoneTag, stripLeadingLabel, startsWithCI, lcase, pyMaxBy, addrKey, keyGT,
      collapseCommas, splitOn, expand_abbrev, removePostal, applyAbbrevs, abbrevTable,
      subWordCI, boundaryL, boundaryR, isWordChar, aliasTable, containsSub, startsWithCS,
      replaceAllCI, pyWords, pyWordsGo, countryCount, countWordCI, List.intercalate]
  exact ⟨h, normalize_country_append _ h⟩

/-! ### Alias-step claim -/

theorem map_lcase_id (m : List Char) (h : ∀ c ∈ m, lcase c = c) : m.map lcase = m := by
  induction m with
  | nil => rfl
  | cons c t ih => simp [h c (by simp), ih (fun x hx => h x (by simp [hx]))]

theorem startsWithCI_lowered (pat l : List Char)
    (hp : ∀ c ∈ pat, lcase c = c) (hl : ∀ c ∈ l, lcase c = c) :
    startsWithCI pat l ↔ startsWithCS pat l := by
  unfold startsWithCI startsWithCS
  rw [map_lcase_id pat hp,
    map_lcase_id (l.take pat.length) (fun c hc => hl c ((List.take_sublist _ _).subset hc))]

theorem replaceAllCI_eq_plain (pat rep : List Char) (hp : ∀ c ∈ pat, lcase c = c) :
    ∀ l : List Char, (∀ c ∈ l, lcase c = c) →
      replaceAllCI pat rep l = plainReplaceAll pat rep l := by
  intro l
  induction l using replaceAllCI.induct pat rep with
  | case1 =>
    intro _
    simp [replaceAllCI, plainReplaceAll]
  | case2 c rest hcond ih =>
    intro hl
    have hcond' : pat ≠ [] ∧ startsWithCS pat (c :: rest) :=
      ⟨hcond.1, (startsWithCI_lowered pat (c :: rest) hp hl).mp hcond.2⟩
    simp only [replaceAllCI, plainReplaceAll]
    rw [if_pos hcond, if_pos hcond',
      ih (fun x hx => hl x ((List.drop_sublist _ _).subset hx))]
  | case3 c rest hcond ih =>
    intro hl
    have hcond' : ¬ (pat ≠ [] ∧ startsWithCS pat (c :: rest)) := by
      intro hc
      exact hcond ⟨hc.1, (startsWithCI_lowered pat (c :: rest) hp hl).mpr hc.2⟩
    simp only [replaceAllCI, plainReplaceAll]
    rw [if_neg hcond, if_neg hcond', ih (fun x hx => hl x (by simp [hx]))]

/-- Claim C10 (confirmed): the alias step behaves exactly as the claim
words it — when an alias key occurs case-insensitively in the processed
segment, the result is the lower-cased segment with every occurrence of
the key replaced by its canonical form (so every alphabetic character
outside the replacement is lower-cased); a segment with no alias match
keeps its casing untouched. The first matching alias in table order wins. -/
theorem expand_abbrev_alias (p : List Char) :
    expand_abbrev p = aliasClaimResult p := by
  simp only [expand_abbrev, aliasClaimResult]
  cases hf : aliasTable.find?
      (fun kv => containsSub kv.1 ((applyAbbrevs (removePostal none p)).map lcase)) with
  | none => rfl
  | some kv =>
    have hmem : kv ∈ aliasTable := List.mem_of_find?_eq_some hf
    have hp : ∀ c ∈ kv.1, lcase c = c := by
      simp only [aliasTable, List.mem_cons, List.mem_singleton] at hmem
      rcases hmem with rfl | rfl | h
      · decide
      · decide
      · simp at h
    have hl : ∀ c ∈ (applyAbbrevs (removePostal none p)).map lcase, lcase c = c := by
      intro c hc
      simp only [List.mem_map] at hc
      obtain ⟨x, _, rfl⟩ := hc
      exact lcase_idem x
    show stripChars (replaceAllCI kv.1 kv.2 ((applyAbbrevs (removePostal none p)).map lcase)) =
      stripChars (plainReplaceAll kv.1 kv.2 ((applyAbbrevs (removePostal none p)).map lcase))
    rw [replaceAllCI_eq_plain kv.1 kv.2 hp _ hl]

end FareService
